import Mathlib

/-!
Verification of the gora HTTP router (github.com/abiiranathan/gora).

Go strings are modelled as lists of characters (`Str`); all routes and
templates in the claims are ASCII, where Go's byte slicing coincides with
character slicing.  Pure fragments of the source are translated into
executable Lean functions; the global `StrictSlash` flag is threaded as an
explicit boolean parameter.
-/

deriving instance DecidableEq for Except

namespace Gora

/-- A Go string, modelled as a list of characters. -/
abbrev Str := List Char

/-- Convert a Lean string literal to the `Str` model. -/
def chars (s : String) : Str := s.toList

/-- Opening brace character. -/
def lbrace : Char := Char.ofNat 123

/-- Closing brace character. -/
def rbrace : Char := Char.ofNat 125

/-- Model of `strings.Contains(s, string(c))` for a single character `c`. -/
def hasC (s : Str) (c : Char) : Bool := s.any (fun x => x == c)

/-- Model of `strings.Split(s, string(sep))` for a single-character separator,
with Go's semantics: `Split("", sep) = [""]`. -/
def splitOnC (sep : Char) : Str → List Str
  | [] => [[]]
  | c :: cs =>
    let r := splitOnC sep cs
    if c = sep then [] :: r
    else
      match r with
      | h :: t => (c :: h) :: t
      | [] => [[c]]

/-- The error message prefix used by `pathPrefixToRegex` in regex.go. -/
def invalidTypeMsg : Str := chars "invalid parameter type: "

/-- The regex body emitted for each supported parameter type
(regex.go lines 35-49): `int`, `str`, `float`, `bool`, `date`, `datetime`.
Returns `none` for any other type token. -/
def typeRegexC (t : Str) : Option Str :=
  if t = chars "int" then some (chars "\\d+")
  else if t = chars "str" then some (chars "\\w+")
  else if t = chars "float" then some (chars "\\d+\\.\\d+")
  else if t = chars "bool" then some (chars "true|false")
  else if t = chars "date" then some (chars "\\d\x7b4\x7d-\\d\x7b2\x7d-\\d\x7b2\x7d")
  else if t = chars "datetime" then
    some (chars "\\d\x7b4\x7d-\\d\x7b2\x7d-\\d\x7b2\x7d \\d\x7b2\x7d:\\d\x7b2\x7d:\\d\x7b2\x7d")
  else none

/-- The placeholder branch of the loop body of `pathPrefixToRegex`
(regex.go lines 26-53): given the extracted parameter name
(`paramName := segment[1:len-1]`), split off a type token at the first colon
(`params[0]`, `params[1]`) and emit the named capture group, or fail on an
unknown type; an untyped placeholder becomes a `\w+` capture. -/
def placeholderEmit (paramName : Str) : Except Str Str :=
  if hasC paramName ':' then
    match typeRegexC ((splitOnC ':' paramName).getD 1 []) with
    | some body =>
      .ok (chars "(?P<" ++ (splitOnC ':' paramName).headD [] ++ chars ">" ++ body ++ chars ")")
    | none => .error (invalidTypeMsg ++ (splitOnC ':' paramName).getD 1 [])
  else .ok (chars "(?P<" ++ paramName ++ chars ">\\w+)")

/-- The per-segment regex fragment produced by the loop body of
`pathPrefixToRegex` (regex.go lines 20-57).  A segment containing both an
opening and a closing brace is treated as a placeholder whose parameter name
is the segment with its first and last character removed
(`segment[1:len(segment)-1]`); any other segment is emitted verbatim. -/
def segEmit (s : Str) : Except Str Str :=
  if hasC s lbrace && hasC s rbrace then placeholderEmit ((s.drop 1).dropLast)
  else .ok s

/-- The segment loop of `pathPrefixToRegex` (regex.go lines 19-62): emit each
segment's fragment, separated by `/` after every non-empty, non-final
segment, accumulating onto `acc`. -/
def buildRegex : List Str → Str → Except Str Str
  | [], acc => .ok acc
  | s :: rest, acc =>
    match segEmit s with
    | .error e => .error e
    | .ok frag =>
      let acc2 := acc ++ frag
      let acc3 := if rest ≠ [] ∧ s ≠ [] then acc2 ++ ['/'] else acc2
      buildRegex rest acc3

/-- The strict-slash post-processing step (regex.go lines 65-67): append a
trailing slash when strict-slash mode is on, the regex is longer than two
characters and does not already end in `/`. -/
def postSlash (strictSlash : Bool) (core : Str) : Str :=
  if strictSlash ∧ 2 < core.length ∧ core.getLast? ≠ some '/' then core ++ ['/'] else core

/-- Model of `pathPrefixToRegex` (regex.go lines 11-72): split the template on `/`,
compile the segments starting from `^/`, apply the strict-slash rule (the
global `StrictSlash` flag is passed explicitly) and append the end anchor. -/
def pathPrefixToRegex (strictSlash : Bool) (p : Str) : Except Str Str :=
  match buildRegex (splitOnC '/' p) (chars "^/") with
  | .error e => .error e
  | .ok core => .ok (postSlash strictSlash core ++ ['$'])

/-- A registered route as stored by `Router.addRoute` (gora.go), with the
compiled pattern kept as the regex source string. -/
structure RouteS where
  pattern : Str
  method : Str
deriving DecidableEq, Repr

/-- Model of `Router.addRoute` (gora.go lines 130-136): compile the pattern and append
the route.  `compileRegex` panics when `pathPrefixToRegex` fails, so the
route is never added; the panic is modelled by `none`. -/
def addRoute (strictSlash : Bool) (routes : List RouteS) (pattern method : Str) :
    Option (List RouteS) :=
  match pathPrefixToRegex strictSlash pattern with
  | .error _ => none
  | .ok rx => some (routes ++ [⟨rx, method⟩])

/-! ### Structured view of the compiled patterns

The regular expressions emitted by `pathPrefixToRegex` all have the shape
`^/ frag (/ frag)* $` where every fragment is either a literal segment or a
named capture group over one of the six parameter types.  `pathPrefixToParts`
compiles a template into that structure by the same segment loop, and
`matchParts` gives the matching semantics of `regexp.MatchString` /
`FindStringSubmatch` for this class of anchored expressions (greedy capture,
backtracking).  `StrictSlash` is off (its default) throughout this view. -/

/-- The six supported placeholder types. -/
inductive PType
  | pint
  | pstr
  | pfloat
  | pbool
  | pdate
  | pdatetime
deriving DecidableEq, Repr

/-- One fragment of a compiled pattern: a literal piece of the regex source
or a named capture group of a given type. -/
inductive RPart
  | lit (s : Str)
  | cap (name : Str) (t : PType)
deriving DecidableEq, Repr

/-- The parameter type selected by the if-chain of regex.go lines 35-49. -/
def typeOf (t : Str) : Option PType :=
  if t = chars "int" then some .pint
  else if t = chars "str" then some .pstr
  else if t = chars "float" then some .pfloat
  else if t = chars "bool" then some .pbool
  else if t = chars "date" then some .pdate
  else if t = chars "datetime" then some .pdatetime
  else none

/-- Structured counterpart of `placeholderEmit`.  An untyped placeholder is
a `\w+` capture, the same as `str`. -/
def placeholderParts (paramName : Str) : Except Str (List RPart) :=
  if hasC paramName ':' then
    match typeOf ((splitOnC ':' paramName).getD 1 []) with
    | some ty => .ok [.cap ((splitOnC ':' paramName).headD []) ty]
    | none => .error (invalidTypeMsg ++ (splitOnC ':' paramName).getD 1 [])
  else .ok [.cap paramName .pstr]

/-- Structured counterpart of `segEmit`: the fragment contributed by one
segment. -/
def segToParts (s : Str) : Except Str (List RPart) :=
  if hasC s lbrace && hasC s rbrace then placeholderParts ((s.drop 1).dropLast)
  else .ok [.lit s]

/-- Structured counterpart of `buildRegex`: fragments of all segments with
`/` separators after every non-empty, non-final segment. -/
def buildParts : List Str → Except Str (List RPart)
  | [] => .ok []
  | s :: rest =>
    match segToParts s with
    | .error e => .error e
    | .ok f =>
      match buildParts rest with
      | .error e => .error e
      | .ok r => .ok (f ++ (if rest ≠ [] ∧ s ≠ [] then [.lit ['/']] else []) ++ r)

/-- Structured counterpart of `pathPrefixToRegex` with `StrictSlash` off:
the leading `lit "/"` is the `^/` prefix; the `^`/`$` anchors are implicit in
`matchParts`, which requires the whole path to be consumed. -/
def pathPrefixToParts (p : Str) : Except Str (List RPart) :=
  match buildParts (splitOnC '/' p) with
  | .error e => .error e
  | .ok core => .ok (.lit ['/'] :: core)

/-- Go's `\w` character class: `[0-9A-Za-z_]`. -/
def wordChar (c : Char) : Bool := c.isAlphanum || c == '_'

/-- Match a string against a fixed-length shape of character predicates. -/
def matchesShape : List (Char → Bool) → Str → Bool
  | [], [] => true
  | f :: fs, c :: cs => f c && matchesShape fs cs
  | _, _ => false

/-- Shape of `\d\x7b4\x7d-\d\x7b2\x7d-\d\x7b2\x7d` (the `date` regex). -/
def dateShape : List (Char → Bool) :=
  List.replicate 4 Char.isDigit ++ [fun c => c == '-'] ++
    List.replicate 2 Char.isDigit ++ [fun c => c == '-'] ++ List.replicate 2 Char.isDigit

/-- Shape of the `datetime` regex: the date shape, a space, and `dd:dd:dd`. -/
def datetimeShape : List (Char → Bool) :=
  dateShape ++ [fun c => c == ' '] ++
    List.replicate 2 Char.isDigit ++ [fun c => c == ':'] ++
    List.replicate 2 Char.isDigit ++ [fun c => c == ':'] ++ List.replicate 2 Char.isDigit

/-- Which strings each capture type's regex body matches in full. -/
def capMatches : PType → Str → Bool
  | .pint, cs => !cs.isEmpty && cs.all Char.isDigit
  | .pstr, cs => !cs.isEmpty && cs.all wordChar
  | .pfloat, cs =>
    let d1 := cs.takeWhile Char.isDigit
    let rest := cs.dropWhile Char.isDigit
    !d1.isEmpty &&
      (match rest with
       | '.' :: d2 => !d2.isEmpty && d2.all Char.isDigit
       | _ => false)
  | .pbool, cs => cs == chars "true" || cs == chars "false"
  | .pdate, cs => matchesShape dateShape cs
  | .pdatetime, cs => matchesShape datetimeShape cs

/-- Strip a literal prefix from the input, if present. -/
def stripLit : Str → Str → Option Str
  | [], cs => some cs
  | _ :: _, [] => none
  | l :: ls, c :: cs => if l = c then stripLit ls cs else none

/-- Greedy backtracking search for a capture group: try consuming `i` input
characters for `i` from the fuel bound down to `1`; on success record the
captured text under the group's name and continue with `k`. -/
def capTry (t : PType) (k : Str → Option (List (Str × Str))) (name : Str) (cs : Str) :
    Nat → Option (List (Str × Str))
  | 0 => none
  | i + 1 =>
    let taken := cs.take (i + 1)
    if capMatches t taken then
      match k (cs.drop (i + 1)) with
      | some m => some ((name, taken) :: m)
      | none => capTry t k name cs i
    else capTry t k name cs i

/-- Matcher for a compiled pattern, in continuation-passing style so that the
recursion is structural on the fragment list. -/
def matchPartsK : List RPart → (Str → Option (List (Str × Str))) → Str →
    Option (List (Str × Str))
  | [], k, cs => k cs
  | .lit s :: ps, k, cs =>
    match stripLit s cs with
    | some rest => matchPartsK ps k rest
    | none => none
  | .cap name t :: ps, k, cs => capTry t (matchPartsK ps k) name cs cs.length

/-- Anchored match of a full path against a compiled pattern, returning the
named captures (the parameter map built by `Router.ServeHTTP` from
`FindStringSubmatch` and `SubexpNames`). -/
def matchParts (parts : List RPart) (path : Str) : Option (List (Str × Str)) :=
  matchPartsK parts (fun cs => if cs = [] then some [] else none) path

/-- A route as consulted by the dispatch loop: compiled pattern and method. -/
structure RouteM where
  pattern : List RPart
  method : Str
deriving DecidableEq, Repr

/-- The dispatch loop of `Router.ServeHTTP` (gora.go lines 157-193) with
`StrictSlash` off: scan the route table in order, skip routes whose method
differs from the request method, and return the first route whose compiled
pattern matches the request path, together with the extracted parameters. -/
def findRoute : List RouteM → Str → Str → Option (RouteM × List (Str × Str))
  | [], _, _ => none
  | r :: rs, m, path =>
    if m = r.method then
      match matchParts r.pattern path with
      | some params => some (r, params)
      | none => findRoute rs m path
    else findRoute rs m path

/-- A valid capture-group name for Go's `regexp` package (an external
collaborator of the router): non-empty and consisting of word characters
only.  `regexp.MustCompile` panics on a group whose name breaks this rule. -/
def validCaptureName (s : Str) : Bool := !s.isEmpty && s.all wordChar

/-- Model of `compileRegex` (regex.go lines 76-82) including the `MustCompile` step:
the result is `none` when the route registration would panic, either because
`pathPrefixToRegex` returns an error or because an emitted capture group
name is rejected by Go's `regexp` parser. -/
def compileRegexChecked (p : Str) : Option (List RPart) :=
  match pathPrefixToParts p with
  | .error _ => none
  | .ok parts =>
    if parts.all (fun pr =>
        match pr with
        | .lit _ => true
        | .cap n _ => validCaptureName n) then some parts
    else none

/-! ### Middleware composition

Handlers are modelled as trace transformers so that execution order is
observable: a handler receives the events so far and returns them extended
with its own events. -/

/-- A handler, observed through the event trace it produces. -/
abbrev Handler := List String → List String

/-- A `MiddlewareFunc`: a function from a handler to a replacement handler. -/
abbrev Middleware := Handler → Handler

/-- The composition performed by `Router.ServeHTTP` (gora.go lines 185-188):
concatenate the global middleware with the route middleware and wrap the
terminal handler by each element in list order
(`handler = mw(handler)` in a forward loop). -/
def composeMiddleware (global routeMw : List Middleware) (h : Handler) : Handler :=
  (global ++ routeMw).foldl (fun acc mw => mw acc) h

/-- A middleware that records `pre` on the way in and `post` on the way out. -/
def tagMw (pre post : String) : Middleware :=
  fun next t => next (t ++ [pre]) ++ [post]

/-- A terminal handler that records a single event. -/
def termHandler (name : String) : Handler := fun t => t ++ [name]

/-! ### Router groups

For the registration-table model, middleware functions are identified by
abstract labels so that the stored lists can be compared. -/

/-- A route as appended to the parent router's table by
`RouterGroup.addRoute` (router_group.go lines 15-21), with middleware
identified by labels. -/
structure RouteG where
  pattern : Str
  method : Str
  middleware : List String
deriving DecidableEq, Repr

/-- A router group (router_group.go lines 9-13): back-reference to the parent
router is implicit (routes are passed explicitly), and the group stores its
prefix and middleware list. -/
structure RouterGroupM where
  prefixStr : Str
  middleware : List String
deriving DecidableEq, Repr

/-- Model of `RouterGroup.addRoute` (router_group.go lines 15-21): append a route with
the given pattern, method and the middleware passed to the call.  The
group's own `middleware` field is not consulted. -/
def groupAddRoute (_g : RouterGroupM) (routes : List RouteG) (pattern method : Str)
    (middleware : List String) : List RouteG :=
  routes ++ [⟨pattern, method, middleware⟩]

/-- Model of `RouterGroup.GET` (router_group.go lines 27-29): register with the
group's prefix concatenated in front of the pattern. -/
def groupGET (g : RouterGroupM) (routes : List RouteG) (pattern : Str)
    (middleware : List String) : List RouteG :=
  groupAddRoute g routes (g.prefixStr ++ pattern) (chars "GET") middleware

/-! ### The response sink (`Writer`, context.go lines 459-474) -/

/-- State of a `Writer`: the recorded status code, whether a header has been
written, and the sequence of status codes forwarded to the underlying
`http.ResponseWriter`. -/
structure WriterState where
  statusCode : Int
  headerWritten : Bool
  forwarded : List Int
deriving DecidableEq, Repr

/-- A fresh `Writer` wrapping the underlying response writer
(`&Writer{ResponseWriter: w}` in `Router.ServeHTTP`). -/
def Writer.init : WriterState := ⟨0, false, []⟩

/-- Model of `Writer.WriteHeader` (context.go lines 466-474): return early when a
header was already written and the status code is nonzero; otherwise record
the status, forward it to the underlying writer, and mark the header
written. -/
def Writer.writeHeader (w : WriterState) (statusCode : Int) : WriterState :=
  if w.headerWritten ∧ statusCode ≠ 0 then w
  else ⟨statusCode, true, w.forwarded ++ [statusCode]⟩

/-! ### The WebSocket hub (src/ws/websocket_handler.go)

The hub's single coordinating loop owns the client set, so its state
mutations are modelled as pure transition functions.  A client's bounded
outbound channel is a queue list with a capacity; a non-blocking send
(`select` with `default`) succeeds exactly when the queue has free space.
`close(client.send)` is recorded by appending the client's id to `closed`. -/

/-- A connected client: identity, buffered outbound queue, queue capacity. -/
structure ClientM where
  id : Nat
  queue : List Nat
  cap : Nat
deriving DecidableEq, Repr

/-- Hub state: the active client set (as an ordered list) and the log of
channel-close events, one entry per `close(client.send)`. -/
structure HubM where
  clients : List ClientM
  closed : List Nat
deriving DecidableEq, Repr

/-- The body of `BroadCastMessage` (websocket_handler.go lines 116-124) over
the client list: a client with queue space receives the message; a client
with a full queue is removed via `removeClient` (queue closed, client
deleted).  Returns the surviving clients and the ids closed. -/
def bcastClients (m : Nat) : List ClientM → List ClientM × List Nat
  | [] => ([], [])
  | c :: rest =>
    let (cs, cl) := bcastClients m rest
    if c.queue.length < c.cap then ({ c with queue := c.queue ++ [m] } :: cs, cl)
    else (cs, c.id :: cl)

/-- Model of `WebsocketHandler.BroadCastMessage` as a hub-state transition. -/
def broadCastMessage (h : HubM) (m : Nat) : HubM :=
  let r := bcastClients m h.clients
  ⟨r.1, h.closed ++ r.2⟩

/-- The `<-h.done` branch of `WebsocketHandler.Run` (websocket_handler.go
lines 103-109): remove every remaining client via `removeClient` (closing
each queue) and terminate the loop. -/
def handleDone (h : HubM) : HubM :=
  ⟨[], h.closed ++ h.clients.map (fun c => c.id)⟩

/-- State of the shutdown trigger returned by `NewHandler` (websocket_handler.go
lines 78-83): whether the `sync.Once` has fired, whether `done` is closed,
and how many times `close(done)` ran. -/
structure QuitState where
  fired : Bool
  doneClosed : Bool
  closeCount : Nat
deriving DecidableEq, Repr

/-- One invocation of the quit function: under the `sync.Once` guard, close
the `done` channel.  Closing an already-closed channel panics in Go, which is
modelled by `none`. -/
def quitOnce (s : QuitState) : Option QuitState :=
  if s.fired then some s
  else if s.doneClosed then none
  else some ⟨true, true, s.closeCount + 1⟩

/-- Invoking the quit function `n` times starting from the fresh state. -/
def quitN : Nat → Option QuitState
  | 0 => some ⟨false, false, 0⟩
  | n + 1 => (quitN n).bind quitOnce

/-- The strict-slash adjustment, expressed on the finished regex string:
strip the end anchor, apply the trailing-slash rule, re-append the anchor. -/
def strictAdjust (r : Str) : Str := postSlash true r.dropLast ++ ['$']

/-- A route is a candidate for a request: the method matches and the
compiled pattern matches the path. -/
def routeHit (m path : Str) (r : RouteM) : Prop :=
  m = r.method ∧ (matchParts r.pattern path).isSome = true

/-! ### Theorems -/

/-- C1 counterexample: with middleware A registered before B around terminal
handler H, the dispatch composition of gora.go lines 185-188 does *not*
execute A's pre-logic first — the claimed onion order
`[A-pre, B-pre, H, B-post, A-post]` is not the produced trace. -/
theorem compose_first_outermost_cex :
    composeMiddleware [tagMw "A-pre" "A-post", tagMw "B-pre" "B-post"] []
        (termHandler "H") [] ≠ ["A-pre", "B-pre", "H", "B-post", "A-post"] := by
  decide

/-- C1 (amended): `Router.ServeHTTP` folds the concatenation of global and
route middleware in list order, so the *last* middleware in that list
becomes the outermost wrapper: `compose([m1, m2], h) = m2(m1(h))`, and with
middleware A registered before B around terminal handler H the execution
order is B's pre-logic, A's pre-logic, H, A's post-logic, B's post-logic. -/
theorem compose_last_outermost :
    (∀ (globalMw routeMw : List Middleware) (h : Handler),
        composeMiddleware globalMw routeMw h = composeMiddleware (globalMw ++ routeMw) [] h)
    ∧ (∀ (mws : List Middleware) (mw : Middleware) (h : Handler),
        composeMiddleware (mws ++ [mw]) [] h = mw (composeMiddleware mws [] h))
    ∧ (∀ (m1 m2 : Middleware) (h : Handler),
        composeMiddleware [m1, m2] [] h = m2 (m1 h))
    ∧ composeMiddleware [tagMw "A-pre" "A-post", tagMw "B-pre" "B-post"] []
        (termHandler "H") [] = ["B-pre", "A-pre", "H", "A-post", "B-post"] := by
  refine ⟨?_, ?_, ?_, ?_⟩
  · intro g r h
    simp [composeMiddleware]
  · intro mws mw h
    simp [composeMiddleware, List.foldl_concat]
  · intro m1 m2 h
    rfl
  · decide

/-- C2: evaluating the code at the failing input.  A group with prefix
`/api` and group middleware `[M]` registering `GET /ping` appends a route
whose pattern is the plain concatenation `/api/ping` but whose middleware
list is only the per-call list (empty here): the group's stored middleware
`[M]` is dropped, so `M` never runs. -/
theorem group_middleware_dropped :
    groupGET ⟨chars "/api", ["M"]⟩ [] (chars "/ping") [] =
        [⟨chars "/api/ping", chars "GET", []⟩] ∧
    (RouterGroupM.mk (chars "/api") ["M"]).middleware = ["M"] ∧
    (groupGET ⟨chars "/api", ["M"]⟩ [] (chars "/ping") []).map (fun r => r.middleware) ≠
        [["M"]] := by
  decide

/-- C5: registering `GET /users/\x7bid:int\x7d` and dispatching
`GET /users/42` selects that route with parameter `id = "42"`, while
`GET /users/abc` does not match the route. -/
theorem users_int_roundtrip :
    pathPrefixToParts (chars "/users/\x7bid:int\x7d") =
        .ok [.lit ['/'], .lit [], .lit (chars "users"), .lit ['/'], .cap (chars "id") .pint] ∧
    findRoute
        [⟨[.lit ['/'], .lit [], .lit (chars "users"), .lit ['/'], .cap (chars "id") .pint],
          chars "GET"⟩]
        (chars "GET") (chars "/users/42") =
      some (⟨[.lit ['/'], .lit [], .lit (chars "users"), .lit ['/'], .cap (chars "id") .pint],
              chars "GET"⟩,
            [(chars "id", chars "42")]) ∧
    findRoute
        [⟨[.lit ['/'], .lit [], .lit (chars "users"), .lit ['/'], .cap (chars "id") .pint],
          chars "GET"⟩]
        (chars "GET") (chars "/users/abc") = none := by
  refine ⟨by decide, by decide, by decide⟩

/-- C6 counterexample: after `WriteHeader(200)`, a second call
`WriteHeader(0)` is *not* a no-op — it overwrites the recorded status with 0
and forwards to the underlying writer a second time. -/
theorem writeHeader_second_call_cex :
    Writer.writeHeader (Writer.writeHeader Writer.init 200) 0 ≠
        Writer.writeHeader Writer.init 200 ∧
    (Writer.writeHeader (Writer.writeHeader Writer.init 200) 0).statusCode ≠ 200 ∧
    (Writer.writeHeader (Writer.writeHeader Writer.init 200) 0).forwarded ≠ [200] := by
  decide

/-- Once a header has been written, a further `WriteHeader` call with a
nonzero status code leaves the `Writer` unchanged. -/
theorem writeHeader_noop_of_written (w : WriterState) (s : Int)
    (hw : w.headerWritten = true) (hs : s ≠ 0) :
    Writer.writeHeader w s = w := by
  simp [Writer.writeHeader, hw, hs]

/-- C6 (amended): for every sequence of `WriteHeader` calls on a fresh sink
in which every call after the first passes a nonzero status code, only the
first call takes effect: the recorded status equals the first argument, that
status is forwarded to the underlying writer exactly once, and every
subsequent call is a no-op.  (A later call passing status code 0 escapes the
`headerWritten` guard and is not a no-op.) -/
theorem writeHeader_first_wins (first : Int) (rest : List Int)
    (hnz : ∀ s ∈ rest, s ≠ 0) :
    rest.foldl Writer.writeHeader (Writer.writeHeader Writer.init first) =
        ⟨first, true, [first]⟩ := by
  have h1 : Writer.writeHeader Writer.init first = ⟨first, true, [first]⟩ := by
    simp [Writer.writeHeader, Writer.init]
  rw [h1]
  induction rest with
  | nil => rfl
  | cons s rest ih =>
    have hs : s ≠ 0 := hnz s (List.mem_cons_self s rest)
    rw [List.foldl_cons, writeHeader_noop_of_written _ _ rfl hs]
    exact ih fun x hx => hnz x (List.mem_cons_of_mem s hx)

/-- Witness for C6 (amended) at `first = 200`, `rest = [404, 500]`. -/
theorem writeHeader_first_wins_witness :
    (∀ s ∈ ([404, 500] : List Int), s ≠ 0) ∧
    ([404, 500] : List Int).foldl Writer.writeHeader (Writer.writeHeader Writer.init 200) =
        ⟨200, true, [200]⟩ :=
  ⟨by decide, writeHeader_first_wins 200 [404, 500] (by decide)⟩

/-- C7 counterexample: compilation is not a function of the template alone —
the same template `/a` compiles to different regular expressions depending on
the global `StrictSlash` flag. -/
theorem compile_strictSlash_dependent_cex :
    pathPrefixToRegex true (chars "/a") = .ok (chars "^/a/$") ∧
    pathPrefixToRegex false (chars "/a") = .ok (chars "^/a$") ∧
    pathPrefixToRegex true (chars "/a") ≠ pathPrefixToRegex false (chars "/a") := by
  refine ⟨by decide, by decide, by decide⟩

/-- C7 (amended): compilation is a pure, deterministic function of the
template *and* the global `StrictSlash` flag; the flag's only effect is the
trailing-slash adjustment applied in front of the end anchor. -/
theorem compile_deterministic_given_flag (p : Str) :
    pathPrefixToRegex true p = Except.map strictAdjust (pathPrefixToRegex false p) := by
  unfold pathPrefixToRegex
  cases h : buildRegex (splitOnC '/' p) (chars "^/") with
  | error e => rfl
  | ok core =>
    simp only [Except.map]
    have hfalse : postSlash false core = core := by simp [postSlash]
    rw [hfalse]
    simp [strictAdjust, List.dropLast_concat]

/-- C3: the dispatch loop scans the table in registration order, never
selects a route whose method differs from the request method, and selects
exactly the first route (in registration order) whose method and compiled
pattern both match — returning `none` precisely when no route matches. -/
theorem dispatch_first_match (routes : List RouteM) (m path : Str) :
    (∀ r params, findRoute routes m path = some (r, params) →
        m = r.method ∧ matchParts r.pattern path = some params ∧
        ∃ i : Nat, routes[i]? = some r ∧
          ∀ j : Nat, j < i → ∀ rj, routes[j]? = some rj → ¬ routeHit m path rj)
    ∧ (findRoute routes m path = none ↔ ∀ r ∈ routes, ¬ routeHit m path r) := by
  induction routes with
  | nil =>
    refine ⟨?_, ?_⟩
    · intro r params hfind
      simp [findRoute] at hfind
    · simp [findRoute]
  | cons r0 rs ih =>
    by_cases hm : m = r0.method
    · cases hmp : matchParts r0.pattern path with
      | some params0 =>
        have hf : findRoute (r0 :: rs) m path = some (r0, params0) := by
          simp [findRoute, hm, hmp]
        refine ⟨?_, ?_⟩
        · intro r params hfind
          rw [hf] at hfind
          simp only [Option.some.injEq, Prod.mk.injEq] at hfind
          obtain ⟨hr, hp⟩ := hfind
          subst hr; subst hp
          refine ⟨hm, hmp, 0, by simp, ?_⟩
          intro j hj
          exact absurd hj (Nat.not_lt_zero j)
        · rw [hf]
          constructor
          · intro h; simp at h
          · intro hall
            exact absurd ⟨hm, by simp [hmp]⟩ (hall r0 (List.mem_cons_self r0 rs))
      | none =>
        have hf : findRoute (r0 :: rs) m path = findRoute rs m path := by
          simp [findRoute, hm, hmp]
        have hhit0 : ¬ routeHit m path r0 := by
          rintro ⟨-, hs⟩
          rw [hmp] at hs
          simp at hs
        refine ⟨?_, ?_⟩
        · intro r params hfind
          rw [hf] at hfind
          obtain ⟨h1, h2, i, hget, hmin⟩ := ih.1 r params hfind
          refine ⟨h1, h2, i + 1, by simpa using hget, ?_⟩
          intro j hj rj hrj
          cases j with
          | zero =>
            simp only [List.getElem?_cons_zero, Option.some.injEq] at hrj
            subst hrj
            exact hhit0
          | succ k =>
            simp only [List.getElem?_cons_succ] at hrj
            exact hmin k (by omega) rj hrj
        · rw [hf, ih.2]
          simp [List.forall_mem_cons, hhit0]
    · have hf : findRoute (r0 :: rs) m path = findRoute rs m path := by
        simp [findRoute, hm]
      have hhit0 : ¬ routeHit m path r0 := fun h => hm h.1
      refine ⟨?_, ?_⟩
      · intro r params hfind
        rw [hf] at hfind
        obtain ⟨h1, h2, i, hget, hmin⟩ := ih.1 r params hfind
        refine ⟨h1, h2, i + 1, by simpa using hget, ?_⟩
        intro j hj rj hrj
        cases j with
        | zero =>
          simp only [List.getElem?_cons_zero, Option.some.injEq] at hrj
          subst hrj
          exact hhit0
        | succ k =>
          simp only [List.getElem?_cons_succ] at hrj
          exact hmin k (by omega) rj hrj
      · rw [hf, ih.2]
        simp [List.forall_mem_cons, hhit0]

/-- Witness for C3: a table with a `POST /` route registered before a
`GET /` route; a `GET /` request skips the first (method mismatch) and
selects the second. -/
theorem dispatch_first_match_witness :
    (chars "GET") = (RouteM.mk [.lit ['/']] (chars "GET")).method ∧
    matchParts [.lit ['/']] (chars "/") = some [] ∧
    ∃ i : Nat, [RouteM.mk [.lit ['/']] (chars "POST"), RouteM.mk [.lit ['/']] (chars "GET")][i]? =
        some (RouteM.mk [.lit ['/']] (chars "GET")) ∧
      ∀ j : Nat, j < i → ∀ rj,
        [RouteM.mk [.lit ['/']] (chars "POST"), RouteM.mk [.lit ['/']] (chars "GET")][j]? =
            some rj →
        ¬ routeHit (chars "GET") (chars "/") rj :=
  (dispatch_first_match
      [RouteM.mk [.lit ['/']] (chars "POST"), RouteM.mk [.lit ['/']] (chars "GET")]
      (chars "GET") (chars "/")).1
    (RouteM.mk [.lit ['/']] (chars "GET")) [] (by decide)

/-- One broadcast pass over the client list keeps exactly the clients with
queue space (with the message enqueued) and closes exactly the ids of the
full clients. -/
theorem bcastClients_eq (m : Nat) (cs : List ClientM) :
    bcastClients m cs =
      ((cs.filter fun c => decide (c.queue.length < c.cap)).map
          (fun c => { c with queue := c.queue ++ [m] }),
       (cs.filter fun c => !decide (c.queue.length < c.cap)).map (fun c => c.id)) := by
  induction cs with
  | nil => rfl
  | cons c rest ih =>
    by_cases hc : c.queue.length < c.cap
    · simp [bcastClients, ih, List.filter_cons, hc]
    · simp [bcastClients, ih, List.filter_cons, hc]

/-- C8: a broadcast enqueues the message on every active client with queue
space, removes each client whose queue is full from the active set and
closes that client's queue exactly once, and leaves every other client's
delivery unaffected.  (The transition is a total function of the hub state:
the `select`/`default` send never blocks the broadcaster.) -/
theorem broadcast_backpressure (h : HubM) (m : Nat)
    (hnd : (h.clients.map fun c => c.id).Nodup)
    (hdisj : ∀ c ∈ h.clients, c.id ∉ h.closed) :
    (broadCastMessage h m).clients =
        (h.clients.filter fun c => decide (c.queue.length < c.cap)).map
          (fun c => { c with queue := c.queue ++ [m] }) ∧
    (broadCastMessage h m).closed =
        h.closed ++
          (h.clients.filter fun c => !decide (c.queue.length < c.cap)).map (fun c => c.id) ∧
    (∀ c ∈ h.clients, ¬ c.queue.length < c.cap →
        (broadCastMessage h m).closed.count c.id = 1 ∧
        c.id ∉ (broadCastMessage h m).clients.map fun c2 => c2.id) ∧
    (∀ c ∈ h.clients, c.queue.length < c.cap →
        { c with queue := c.queue ++ [m] } ∈ (broadCastMessage h m).clients) := by
  have hmain : broadCastMessage h m =
      ⟨(h.clients.filter fun c => decide (c.queue.length < c.cap)).map
          (fun c => { c with queue := c.queue ++ [m] }),
       h.closed ++
         (h.clients.filter fun c => !decide (c.queue.length < c.cap)).map (fun c => c.id)⟩ := by
    simp [broadCastMessage, bcastClients_eq]
  refine ⟨by rw [hmain], by rw [hmain], ?_, ?_⟩
  · intro c hc hfull
    constructor
    · rw [hmain]
      have hzero : h.closed.count c.id = 0 :=
        List.count_eq_zero.mpr (hdisj c hc)
      have hmem : c ∈ h.clients.filter fun c2 => !decide (c2.queue.length < c2.cap) :=
        List.mem_filter.mpr ⟨hc, by simp [hfull]⟩
      have hsub : ((h.clients.filter fun c2 => !decide (c2.queue.length < c2.cap)).map
            fun c2 => c2.id).Sublist (h.clients.map fun c2 => c2.id) :=
        (List.filter_sublist h.clients).map fun c2 => c2.id
      have hnodup := hnd.sublist hsub
      have hone : ((h.clients.filter fun c2 => !decide (c2.queue.length < c2.cap)).map
            fun c2 => c2.id).count c.id = 1 :=
        List.count_eq_one_of_mem hnodup (List.mem_map_of_mem (fun c2 => c2.id) hmem)
      simp [List.count_append, hzero, hone]
    · rw [hmain]
      intro hmem
      simp only [List.map_map, List.mem_map, Function.comp] at hmem
      obtain ⟨c2, hc2mem, hc2id⟩ := hmem
      have hc2 : c2 ∈ h.clients := List.mem_of_mem_filter hc2mem
      have hspace : c2.queue.length < c2.cap := by
        have := List.of_mem_filter hc2mem
        simpa using this
      have : c2 = c := List.inj_on_of_nodup_map hnd hc2 hc hc2id
      subst this
      exact hfull hspace
  · intro c hc hspace
    rw [hmain]
    exact List.mem_map_of_mem _ (List.mem_filter.mpr ⟨hc, by simp [hspace]⟩)

/-- Witness for C8: a hub with one full client (id 1, capacity 1, one queued
message) and one client with space (id 2); broadcasting closes client 1
exactly once and removes it. -/
theorem broadcast_backpressure_witness :
    (broadCastMessage ⟨[⟨1, [9], 1⟩, ⟨2, [], 2⟩], []⟩ 5).closed.count 1 = 1 ∧
    1 ∉ (broadCastMessage ⟨[⟨1, [9], 1⟩, ⟨2, [], 2⟩], []⟩ 5).clients.map fun c2 => c2.id :=
  (broadcast_backpressure ⟨[⟨1, [9], 1⟩, ⟨2, [], 2⟩], []⟩ 5 (by decide)
      (by decide)).2.2.1 ⟨1, [9], 1⟩ (by decide) (by decide)

/-- C9: the shutdown trigger returned by `NewHandler` is idempotent — any
positive number of invocations closes the `done` channel exactly once and
never panics — and on observing the shutdown signal the run loop removes
every remaining client, closing each client's queue exactly once, and
terminates with an empty client set. -/
theorem shutdown_idempotent (n : Nat) (h : HubM) (hn : 1 ≤ n)
    (hnd : (h.clients.map fun c => c.id).Nodup)
    (hdisj : ∀ c ∈ h.clients, c.id ∉ h.closed) :
    quitN n = some ⟨true, true, 1⟩ ∧
    (handleDone h).clients = [] ∧
    ∀ c ∈ h.clients, (handleDone h).closed.count c.id = 1 := by
  refine ⟨?_, rfl, ?_⟩
  · induction n with
    | zero => omega
    | succ k ih =>
      match k, ih with
      | 0, _ => rfl
      | k + 1, ih =>
        have hk := ih (Nat.le_add_left 1 k)
        show ((quitN (k + 1)).bind quitOnce) = some ⟨true, true, 1⟩
        rw [hk]
        rfl
  · intro c hc
    have hzero : h.closed.count c.id = 0 := List.count_eq_zero.mpr (hdisj c hc)
    have hone : (h.clients.map fun c2 => c2.id).count c.id = 1 :=
      List.count_eq_one_of_mem hnd (List.mem_map_of_mem (fun c2 => c2.id) hc)
    simp [handleDone, List.count_append, hzero, hone]

/-- Witness for C9: two invocations of the quit trigger on a hub holding one
client. -/
theorem shutdown_idempotent_witness :
    quitN 2 = some ⟨true, true, 1⟩ ∧
    (handleDone ⟨[⟨1, [], 1⟩], []⟩).clients = [] ∧
    ∀ c ∈ ([⟨1, [], 1⟩] : List ClientM),
      (handleDone ⟨[⟨1, [], 1⟩], []⟩).closed.count c.id = 1 :=
  shutdown_idempotent 2 ⟨[⟨1, [], 1⟩], []⟩ (by decide) (by decide) (by decide)

/-- Splitting a list free of the separator yields the list itself. -/
theorem splitOnC_of_sepFree (sep : Char) (xs : Str) (h : hasC xs sep = false) :
    splitOnC sep xs = [xs] := by
  induction xs with
  | nil => rfl
  | cons c cs ih =>
    simp only [hasC, List.any_cons, Bool.or_eq_false_iff, beq_eq_false_iff_ne] at h
    have hr := ih (by simp [hasC, h.2])
    simp [splitOnC, hr, h.1]

/-- Splitting at the first separator occurrence peels off the prefix. -/
theorem splitOnC_of_append (sep : Char) (xs ys : Str) (h : hasC xs sep = false) :
    splitOnC sep (xs ++ sep :: ys) = xs :: splitOnC sep ys := by
  induction xs with
  | nil => simp [splitOnC]
  | cons c cs ih =>
    simp only [hasC, List.any_cons, Bool.or_eq_false_iff, beq_eq_false_iff_ne] at h
    have hr := ih (by simp [hasC, h.2])
    simp [splitOnC, hr, h.1]

/-- A segment containing both braces takes the placeholder branch, with the
parameter name being the segment stripped of its first and last character. -/
theorem segEmit_placeholder (s : Str) (h1 : hasC s lbrace = true)
    (h2 : hasC s rbrace = true) :
    segEmit s = placeholderEmit ((s.drop 1).dropLast) := by
  simp [segEmit, h1, h2]

/-- Stripping the first and last character of a braced segment recovers its
interior. -/
theorem strip_braced (mid : Str) :
    ((lbrace :: (mid ++ [rbrace])).drop 1).dropLast = mid := by
  simp only [List.drop_succ_cons, List.drop_zero, List.dropLast_concat]

/-- On a colon-free name and type, the placeholder branch extracts exactly
that name and type, emitting the documented capture group on a supported
type. -/
theorem placeholderEmit_typed_some (name t body : Str) (hn : hasC name ':' = false)
    (ht : hasC t ':' = false) (hb : typeRegexC t = some body) :
    placeholderEmit (name ++ ':' :: t) =
      .ok (chars "(?P<" ++ name ++ chars ">" ++ body ++ chars ")") := by
  have h4 : hasC (name ++ ':' :: t) ':' = true := by
    simp [hasC]
  have h5 : splitOnC ':' (name ++ ':' :: t) = [name, t] := by
    rw [splitOnC_of_append ':' name t hn, splitOnC_of_sepFree ':' t ht]
  simp [placeholderEmit, h4, h5, hb]

/-- On a colon-free name and an unsupported type token, the placeholder
branch fails with the `invalid parameter type` error naming that token. -/
theorem placeholderEmit_typed_none (name t : Str) (hn : hasC name ':' = false)
    (ht : hasC t ':' = false) (hb : typeRegexC t = none) :
    placeholderEmit (name ++ ':' :: t) = .error (invalidTypeMsg ++ t) := by
  have h4 : hasC (name ++ ':' :: t) ':' = true := by
    simp [hasC]
  have h5 : splitOnC ':' (name ++ ':' :: t) = [name, t] := by
    rw [splitOnC_of_append ':' name t hn, splitOnC_of_sepFree ':' t ht]
  simp [placeholderEmit, h4, h5, hb]

/-- A typed placeholder segment with a supported type compiles to the
documented capture group. -/
theorem segEmit_typed_some (name t body : Str) (hn : hasC name ':' = false)
    (ht : hasC t ':' = false) (hb : typeRegexC t = some body) :
    segEmit (lbrace :: (((name ++ ':' :: t)) ++ [rbrace])) =
      .ok (chars "(?P<" ++ name ++ chars ">" ++ body ++ chars ")") := by
  rw [segEmit_placeholder _ (by simp [hasC]) (by simp [hasC]), strip_braced]
  exact placeholderEmit_typed_some name t body hn ht hb

/-- A typed placeholder segment with an unsupported type makes compilation
fail with the `invalid parameter type` error. -/
theorem segEmit_typed_none (name t : Str) (hn : hasC name ':' = false)
    (ht : hasC t ':' = false) (hb : typeRegexC t = none) :
    segEmit (lbrace :: (((name ++ ':' :: t)) ++ [rbrace])) =
      .error (invalidTypeMsg ++ t) := by
  rw [segEmit_placeholder _ (by simp [hasC]) (by simp [hasC]), strip_braced]
  exact placeholderEmit_typed_none name t hn ht hb

/-- An untyped placeholder segment is compiled to a `\w+` capture named by
the segment's interior. -/
theorem segEmit_untyped (name : Str) (hn : hasC name ':' = false) :
    segEmit (lbrace :: (name ++ [rbrace])) =
      .ok (chars "(?P<" ++ name ++ chars ">\\w+)") := by
  rw [segEmit_placeholder _ (by simp [hasC]) (by simp [hasC]), strip_braced]
  simp [placeholderEmit, hn]

/-- Every error produced by the placeholder branch carries the
`invalid parameter type: ` prefix. -/
theorem placeholderEmit_errorShape (p e : Str) (h : placeholderEmit p = .error e) :
    invalidTypeMsg <+: e := by
  unfold placeholderEmit at h
  split at h
  · split at h
    · simp at h
    · rw [Except.error.injEq] at h
      subst h
      exact List.prefix_append _ _
  · simp at h

/-- Every error produced by a segment carries the
`invalid parameter type: ` prefix — it is the compiler's only error site. -/
theorem segEmit_errorShape (s e : Str) (h : segEmit s = .error e) :
    invalidTypeMsg <+: e := by
  unfold segEmit at h
  split at h
  · exact placeholderEmit_errorShape _ e h
  · simp at h

/-- Errors of the segment loop inherit the `invalid parameter type: `
prefix. -/
theorem buildRegex_errorShape (segs : List Str) :
    ∀ acc e, buildRegex segs acc = .error e → invalidTypeMsg <+: e := by
  induction segs with
  | nil =>
    intro acc e h
    simp [buildRegex] at h
  | cons s rest ih =>
    intro acc e h
    unfold buildRegex at h
    cases hs : segEmit s with
    | error e0 =>
      rw [hs] at h
      rw [Except.error.injEq] at h
      subst h
      exact segEmit_errorShape s e0 hs
    | ok frag =>
      rw [hs] at h
      exact ih _ e h

/-- If any segment of the template fails to compile, the whole segment loop
fails. -/
theorem buildRegex_error_of_mem (segs : List Str) :
    ∀ acc s, s ∈ segs → (∃ e0, segEmit s = .error e0) →
      ∃ e, buildRegex segs acc = .error e := by
  induction segs with
  | nil =>
    intro acc s hs
    cases hs
  | cons s0 rest ih =>
    intro acc s hs he
    obtain ⟨e0, he0⟩ := he
    cases hseg : segEmit s0 with
    | error e1 =>
      exact ⟨e1, by simp [buildRegex, hseg]⟩
    | ok frag =>
      rcases List.mem_cons.mp hs with rfl | hmem
      · rw [he0] at hseg
        simp at hseg
      · have hstep : buildRegex (s0 :: rest) acc =
            buildRegex rest
              (if rest ≠ [] ∧ s0 ≠ [] then (acc ++ frag) ++ ['/'] else acc ++ frag) := by
          simp [buildRegex, hseg]
        obtain ⟨e2, he2⟩ :=
          ih (if rest ≠ [] ∧ s0 ≠ [] then (acc ++ frag) ++ ['/'] else acc ++ frag) s hmem
            ⟨e0, he0⟩
        exact ⟨e2, by rw [hstep]; exact he2⟩

/-- C4: a path template containing a placeholder segment whose type token is
not one of int, str, float, bool, date, datetime makes pattern compilation
return an `invalid parameter type` error, so route registration panics and
the route is never added; for every supported type the emitted named capture
group body is exactly the documented regex
(`int` to `\d+`, `str` and untyped to `\w+`, `float` to `\d+\.\d+`,
`bool` to `true|false`, `date` to the dashed digit shape, `datetime` to the
date shape plus a time). -/
theorem invalid_type_rejected :
    (∀ (strictSlash : Bool) (tmpl name t : Str) (routes : List RouteS) (method : Str),
        hasC name ':' = false → hasC t ':' = false → typeRegexC t = none →
        (lbrace :: ((name ++ ':' :: t) ++ [rbrace])) ∈ splitOnC '/' tmpl →
        (∃ e, pathPrefixToRegex strictSlash tmpl = .error e ∧ invalidTypeMsg <+: e) ∧
          addRoute strictSlash routes tmpl method = none)
    ∧ (∀ name : Str, hasC name ':' = false →
        segEmit (lbrace :: ((name ++ ':' :: chars "int") ++ [rbrace])) =
            .ok (chars "(?P<" ++ name ++ chars ">" ++ chars "\\d+" ++ chars ")") ∧
        segEmit (lbrace :: ((name ++ ':' :: chars "str") ++ [rbrace])) =
            .ok (chars "(?P<" ++ name ++ chars ">" ++ chars "\\w+" ++ chars ")") ∧
        segEmit (lbrace :: ((name ++ ':' :: chars "float") ++ [rbrace])) =
            .ok (chars "(?P<" ++ name ++ chars ">" ++ chars "\\d+\\.\\d+" ++ chars ")") ∧
        segEmit (lbrace :: ((name ++ ':' :: chars "bool") ++ [rbrace])) =
            .ok (chars "(?P<" ++ name ++ chars ">" ++ chars "true|false" ++ chars ")") ∧
        segEmit (lbrace :: ((name ++ ':' :: chars "date") ++ [rbrace])) =
            .ok (chars "(?P<" ++ name ++ chars ">" ++
                  chars "\\d\x7b4\x7d-\\d\x7b2\x7d-\\d\x7b2\x7d" ++ chars ")") ∧
        segEmit (lbrace :: ((name ++ ':' :: chars "datetime") ++ [rbrace])) =
            .ok (chars "(?P<" ++ name ++ chars ">" ++
                  chars "\\d\x7b4\x7d-\\d\x7b2\x7d-\\d\x7b2\x7d \\d\x7b2\x7d:\\d\x7b2\x7d:\\d\x7b2\x7d" ++
                  chars ")") ∧
        segEmit (lbrace :: (name ++ [rbrace])) =
            .ok (chars "(?P<" ++ name ++ chars ">\\w+)")) := by
  constructor
  · intro strictSlash tmpl name t routes method hn ht hb hmem
    have hseg : segEmit (lbrace :: ((name ++ ':' :: t) ++ [rbrace])) =
        .error (invalidTypeMsg ++ t) := segEmit_typed_none name t hn ht hb
    obtain ⟨e, he⟩ :=
      buildRegex_error_of_mem (splitOnC '/' tmpl) (chars "^/") _ hmem ⟨_, hseg⟩
    have hpre := buildRegex_errorShape _ _ _ he
    refine ⟨⟨e, ?_, hpre⟩, ?_⟩
    · simp [pathPrefixToRegex, he]
    · simp [addRoute, pathPrefixToRegex, he]
  · intro name hn
    refine ⟨?_, ?_, ?_, ?_, ?_, ?_, segEmit_untyped name hn⟩
    · exact segEmit_typed_some name (chars "int") (chars "\\d+") hn (by decide) (by decide)
    · exact segEmit_typed_some name (chars "str") (chars "\\w+") hn (by decide) (by decide)
    · exact segEmit_typed_some name (chars "float") (chars "\\d+\\.\\d+") hn
        (by decide) (by decide)
    · exact segEmit_typed_some name (chars "bool") (chars "true|false") hn
        (by decide) (by decide)
    · exact segEmit_typed_some name (chars "date")
        (chars "\\d\x7b4\x7d-\\d\x7b2\x7d-\\d\x7b2\x7d") hn (by decide) (by decide)
    · exact segEmit_typed_some name (chars "datetime")
        (chars "\\d\x7b4\x7d-\\d\x7b2\x7d-\\d\x7b2\x7d \\d\x7b2\x7d:\\d\x7b2\x7d:\\d\x7b2\x7d")
        hn (by decide) (by decide)

/-- Witness for C4 at template `/\x7bid:xyz\x7d` (unknown type `xyz`) and at the
`int` emission for the name `id`. -/
theorem invalid_type_rejected_witness :
    ((∃ e, pathPrefixToRegex false (chars "/\x7bid:xyz\x7d") = .error e ∧
          invalidTypeMsg <+: e) ∧
      addRoute false [] (chars "/\x7bid:xyz\x7d") (chars "GET") = none) ∧
    segEmit (lbrace :: ((chars "id" ++ ':' :: chars "int") ++ [rbrace])) =
        .ok (chars "(?P<" ++ chars "id" ++ chars ">" ++ chars "\\d+" ++ chars ")") :=
  ⟨invalid_type_rejected.1 false (chars "/\x7bid:xyz\x7d") (chars "id") (chars "xyz")
      [] (chars "GET") (by decide) (by decide) (by decide) (by decide),
   (invalid_type_rejected.2 (chars "id") (by decide)).1⟩

/-- C10: every template segment containing both a brace-open and a
brace-close character anywhere is treated as a placeholder whose parameter
name is the segment with exactly its first and last character removed; in
particular the literal segment `a\x7bb\x7dc` is never inserted verbatim — the
template `/a\x7bb\x7dc` compiles to a capture group named `\x7bb\x7d`, which Go's
regexp parser rejects, so registration panics. -/
theorem brace_segment_placeholder :
    (∀ s : Str, hasC s lbrace = true → hasC s rbrace = true →
        segEmit s = placeholderEmit ((s.drop 1).dropLast) ∧
        segToParts s = placeholderParts ((s.drop 1).dropLast)) ∧
    pathPrefixToRegex false (chars "/a\x7bb\x7dc") =
        .ok (chars "^/(?P<\x7bb\x7d>\\w+)$") ∧
    compileRegexChecked (chars "/a\x7bb\x7dc") = none := by
  refine ⟨?_, by decide, by decide⟩
  intro s h1 h2
  exact ⟨segEmit_placeholder s h1 h2, by simp [segToParts, h1, h2]⟩

/-- Witness for C10 at the segment `a\x7bb\x7dc`. -/
theorem brace_segment_placeholder_witness :
    segEmit (chars "a\x7bb\x7dc") =
        placeholderEmit (((chars "a\x7bb\x7dc").drop 1).dropLast) ∧
    segToParts (chars "a\x7bb\x7dc") =
        placeholderParts (((chars "a\x7bb\x7dc").drop 1).dropLast) :=
  brace_segment_placeholder.1 (chars "a\x7bb\x7dc") (by decide) (by decide)

end Gora
